import Mathlib

/-!
Verification of the framing and response dispatch engine of the
LSST ts_cRIOcpp library (ModbusBuffer / ILC classes) against its
natural-language specification.

The development is a shallow embedding: the C++ classes are translated
into Lean definitions.  `ModbusBuffer`'s mutable object state becomes the
structure `MB`; member functions that mutate the object become functions
`MB → ... × MB`; functions that may throw return `Except MBError`
results paired with the state at the moment of the return or throw
(C++ exceptions leave the object in its partially mutated state, which
the paired `MB` captures).  Machine integers are modelled as `Nat`
(`uint8_t` values carry side conditions `< 256` where they matter,
`uint16_t` values `< 65536`, and `uint32_t` arithmetic is performed with
explicit masks exactly where the C++ code masks).  Signed integers are
modelled as `Int` together with their two's complement bit patterns.
-/

namespace CRIO

/-- FPGA FIFO command masks, from namespace FIFO in ModbusBuffer.h. -/
def FIFO.WRITE : Nat := 0x1000

/-- Literal token terminating a Tx frame (ModbusBuffer.h). -/
def FIFO.TX_FRAMEEND : Nat := 0x20DA

/-- Delay class nibble (ModbusBuffer.h). -/
def FIFO.DELAY : Nat := 0x4000

/-- Long delay class nibble (ModbusBuffer.h). -/
def FIFO.LONG_DELAY : Nat := 0x5000

/-- Wait-for-Rx class nibble (ModbusBuffer.h). -/
def FIFO.TX_WAIT_RX : Nat := 0x6000

/-- Long wait-for-Rx class nibble (ModbusBuffer.h). -/
def FIFO.TX_WAIT_LONG_RX : Nat := 0x9000

/-- Rx end-of-frame marker (ModbusBuffer.h). -/
def FIFO.RX_ENDFRAME : Nat := 0xA000

/-- Command class mask (ModbusBuffer.h). -/
def FIFO.CMD_MASK : Nat := 0xF000

/-- Tx data word mask (ModbusBuffer.h); ILC::getByteInstruction ors this in. -/
def FIFO.TX_MASK : Nat := 0x1200

/-- One round of the Modbus CRC bit loop, translated from the body of the
for-loop in ModbusBuffer::CRC::add: shift right by one, and xor with
0xA001 when the low bit was set before the shift. -/
def crcRound (c : Nat) : Nat :=
  if c &&& 0x0001 ≠ 0 then (c >>> 1) ^^^ 0xA001 else c >>> 1

/-- ModbusBuffer::CRC::add, translated from ModbusBuffer.cpp: xor the data
byte into the accumulator, then run eight rounds of the bit loop. -/
def CRC.add (c : Nat) (data : Nat) : Nat :=
  crcRound (crcRound (crcRound (crcRound (crcRound (crcRound (crcRound (crcRound (c ^^^ data))))))))

/-- ModbusBuffer::CRC::get — returns the accumulator with no final xor. -/
def CRC.get (c : Nat) : Nat := c

/-- Initial CRC accumulator value, ModbusBuffer::CRC::reset. -/
def CRC.init : Nat := 0xFFFF

/-- CRC accumulator state after feeding a byte sequence into
ModbusBuffer::CRC::add starting from a freshly reset accumulator. -/
def crcState (bytes : List Nat) : Nat := bytes.foldl CRC.add CRC.init

/-- Reference Modbus CRC-16, written from the specification text (§4.1):
starting from 0xFFFF, for each payload byte d the state is xored with d
and then, eight times, shifted right by one and xored with 0xA001 when
the shifted-out bit was 1.  Written with % and / arithmetic, independent
of the source translation above. -/
def modbusCRCRefStep : Nat → Nat → Nat
  | 0, c => c
  | k + 1, c => modbusCRCRefStep k (if c % 2 = 1 then c / 2 ^^^ 0xA001 else c / 2)

/-- Reference Modbus CRC-16 over a byte list, per the specification. -/
def modbusCRCRef : List Nat → Nat → Nat
  | [], c => c
  | d :: ds, c => modbusCRCRef ds (modbusCRCRefStep 8 (c ^^^ d))

/-- State of a ModbusBuffer object (private members of the C++ class):
the word buffer, the read cursor, the CRC accumulator, the
change-recording flag and record vector, and the commanded-request
queue (front of the queue = head of the list). -/
structure MB where
  buffer : List Nat
  index : Nat
  crc : Nat
  recordChanges : Bool
  records : List Nat
  commanded : List (Nat × Nat)
  deriving Repr, DecidableEq

/-- Freshly constructed ModbusBuffer (constructor calls clear()). -/
def emptyMB : MB :=
  { buffer := [], index := 0, crc := CRC.init, recordChanges := false,
    records := [], commanded := [] }

/-- ModbusBuffer::processDataCRC — if recording, append the byte to the
record vector; always feed the byte to the CRC accumulator. -/
def processDataCRC (s : MB) (data : Nat) : MB :=
  { s with records := if s.recordChanges then s.records ++ [data] else s.records,
           crc := CRC.add s.crc data }

/-- ILC::getByteInstruction — update CRC (and recording) and produce the
FIFO word: TX_MASK with the data byte shifted left past the start bit. -/
def getByteInstruction (s : MB) (data : Nat) : Nat × MB :=
  (FIFO.TX_MASK ||| (data <<< 1), processDataCRC s data)

/-- One iteration of ModbusBuffer::writeBuffer —
pushBuffer(getByteInstruction(data)). -/
def writeByte (s : MB) (data : Nat) : MB :=
  let (w, s1) := getByteInstruction s data
  { s1 with buffer := s1.buffer ++ [w] }

/-- ModbusBuffer::writeBuffer over a byte list. -/
def writeBytes (s : MB) (ds : List Nat) : MB := ds.foldl writeByte s

/-- Big-endian byte decomposition: most significant byte first, k bytes. -/
def toBytesBE : Nat → Nat → List Nat
  | 0, _ => []
  | k + 1, v => ((v >>> (8 * k)) &&& 0xFF) :: toBytesBE k v

/-- Big-endian byte recomposition. -/
def fromBytesBE : List Nat → Nat
  | [] => 0
  | d :: ds => d * 256 ^ ds.length + fromBytesBE ds

/-- ModbusBuffer::writeCRC — append the two CRC bytes little-endian
(low byte first) through the byte-instruction encoder, then reset the
accumulator. -/
def writeCRC (s : MB) : MB :=
  let c := s.crc
  let s1 := writeByte s (c &&& 0xFF)
  let s2 := writeByte s1 ((c >>> 8) &&& 0xFF)
  { s2 with crc := CRC.init }

/-- ModbusBuffer::reset — cursor to 0, CRC reset, recording off, record
vector cleared. -/
def MB.reset (s : MB) : MB :=
  { s with index := 0, crc := CRC.init, recordChanges := false, records := [] }

/-- ModbusBuffer::setBuffer — replace contents, reset cursor and CRC
(recording flag and record vector are untouched by the source). -/
def setBuffer (s : MB) (words : List Nat) : MB :=
  { s with buffer := words, index := 0, crc := CRC.init }

/-- Errors thrown by ModbusBuffer member functions. -/
inductive MBError where
  | endOfBuffer
  | crcError (calculated received : Nat)
  | unmatchedFunction (address function : Nat)
  | unmatchedFunctionExpected (address function expectedAddress expectedFunction : Nat)
  | runtimeError
  deriving Repr, DecidableEq

/-- ILC::readInstructionByte — throw EndOfBuffer when the cursor is past
the end, otherwise return the current word shifted right by one (start
bit stripped) masked to a byte, advancing the cursor. -/
def readInstructionByte (s : MB) : Except MBError Nat × MB :=
  if s.index < s.buffer.length then
    (Except.ok ((s.buffer.getD s.index 0 >>> 1) &&& 0xFF), { s with index := s.index + 1 })
  else (Except.error MBError.endOfBuffer, s)

/-- ModbusBuffer::readBuffer — read len bytes, feeding each through
processDataCRC after it is extracted. -/
def readBytes : Nat → MB → Except MBError (List Nat) × MB
  | 0, s => (Except.ok [], s)
  | n + 1, s =>
    match readInstructionByte s with
    | (Except.ok d, s1) =>
      let s2 := processDataCRC s1 d
      match readBytes n s2 with
      | (Except.ok ds, s3) => (Except.ok (d :: ds), s3)
      | (Except.error e, s3) => (Except.error e, s3)
    | (Except.error e, s1) => (Except.error e, s1)

/-- ModbusBuffer::checkCRC — capture the calculated CRC, stop recording,
read two bytes, interpret them as a little-endian CRC, throw CRCError on
mismatch, reset the accumulator on success. -/
def checkCRC (s : MB) : Except MBError Unit × MB :=
  let calCrc := s.crc
  let s0 := { s with recordChanges := false }
  match readBytes 2 s0 with
  | (Except.ok ds, s1) =>
    let received := ds.getD 0 0 + 256 * ds.getD 1 0
    if received ≠ calCrc then (Except.error (MBError.crcError calCrc received), s1)
    else (Except.ok (), { s1 with crc := CRC.init })
  | (Except.error e, s1) => (Except.error e, s1)

/-- ModbusBuffer::writeDelay — a DELAY word holding the microseconds when
they fit in 12 bits, otherwise a LONG_DELAY word holding
(µs/1000)+1 masked to 12 bits. -/
def writeDelay (s : MB) (delayMicros : Nat) : MB :=
  { s with buffer := s.buffer ++
      [if delayMicros > 0x0FFF
       then (0x0FFF &&& (delayMicros / 1000 + 1)) ||| FIFO.LONG_DELAY
       else delayMicros ||| FIFO.DELAY] }

/-- ILC::writeWaitForRx — same short/long encoding as writeDelay but with
the TX_WAIT_RX / TX_WAIT_LONG_RX classes. -/
def writeWaitForRx (s : MB) (timeoutMicros : Nat) : MB :=
  { s with buffer := s.buffer ++
      [if timeoutMicros > 0x0FFF
       then (0x0FFF &&& (timeoutMicros / 1000 + 1)) ||| FIFO.TX_WAIT_LONG_RX
       else timeoutMicros ||| FIFO.TX_WAIT_RX] }

/-- ILC::writeEndOfFrame — pushBuffer(FIFO::TX_FRAMEEND). -/
def writeEndOfFrame (s : MB) : MB :=
  { s with buffer := s.buffer ++ [FIFO.TX_FRAMEEND] }

/-- ModbusBuffer::readDelay — dispatch on the class nibble of the current
word: DELAY yields the low 12 bits, LONG_DELAY yields the low 12 bits
times 1000, anything else throws; the cursor advances on success. -/
def readDelay (s : MB) : Except MBError Nat × MB :=
  let w := s.buffer.getD s.index 0
  let c := w &&& 0xF000
  if c = FIFO.DELAY then (Except.ok (0x0FFF &&& w), { s with index := s.index + 1 })
  else if c = FIFO.LONG_DELAY then
    (Except.ok ((0x0FFF &&& w) * 1000), { s with index := s.index + 1 })
  else (Except.error MBError.runtimeError, s)

/-- ILC::readWaitForRx — as readDelay but for the TX_WAIT_RX and
TX_WAIT_LONG_RX classes. -/
def readWaitForRx (s : MB) : Except MBError Nat × MB :=
  let w := s.buffer.getD s.index 0
  let c := w &&& 0xF000
  if c = FIFO.TX_WAIT_RX then (Except.ok (0x0FFF &&& w), { s with index := s.index + 1 })
  else if c = FIFO.TX_WAIT_LONG_RX then
    (Except.ok ((0x0FFF &&& w) * 1000), { s with index := s.index + 1 })
  else (Except.error MBError.runtimeError, s)

/-- Loop body of ModbusBuffer::getReadData, translated literally: the
loop variable i runs while i < _index, but _index itself advances on
every readInstructionByte call.  getReadData does not feed the bytes to
the CRC (it calls readInstructionByte directly, not readBuffer), so only
the cursor moves.  Terminates because the cursor grows towards the end
of the buffer, where readInstructionByte throws. -/
def getReadDataLoop (buf : List Nat) (acc : List Nat) (i index : Nat) :
    Except MBError (List Nat) × Nat :=
  if i < index then
    if index < buf.length then
      getReadDataLoop buf (acc ++ [(buf.getD index 0 >>> 1) &&& 0xFF]) (i + 1) (index + 1)
    else (Except.error MBError.endOfBuffer, index)
  else (Except.ok acc, index)
termination_by buf.length - index

/-- ModbusBuffer::getReadData — size_t i starts at _index - length.  With
length ≤ index the subtraction does not wrap; with length > index the
unsigned subtraction wraps to a value at least 2^64 - 2^31, which for
any realizable buffer exceeds _index, so the loop exits immediately
(this is the meaning of the length > index branch below). -/
def getReadData (s : MB) (length : Nat) : Except MBError (List Nat) × MB :=
  if length ≤ s.index then
    ((getReadDataLoop s.buffer [] (s.index - length) s.index).1,
     { s with index := (getReadDataLoop s.buffer [] (s.index - length) s.index).2 })
  else (Except.ok [], s)

/-- ModbusBuffer::pushCommanded — enqueue the pair exactly when
(address > 0 and address < 248) or address = 255. -/
def pushCommanded (address function : Nat) (q : List (Nat × Nat)) : List (Nat × Nat) :=
  if (address > 0 ∧ address < 248) ∨ address = 255 then q ++ [(address, function)] else q

/-- ModbusBuffer::checkCommanded — on an empty queue throw
UnmatchedFunction(address, function); otherwise pop the front and throw
UnmatchedFunction(address, function, front.first, front.second) when the
popped pair differs (the pop happens before the comparison, so the front
is consumed in the mismatch case as well). -/
def checkCommanded (address function : Nat) (s : MB) : Except MBError Unit × MB :=
  match s.commanded with
  | [] => (Except.error (MBError.unmatchedFunction address function), s)
  | last :: rest =>
    let s1 := { s with commanded := rest }
    if last.1 ≠ address ∨ last.2 ≠ function then
      (Except.error (MBError.unmatchedFunctionExpected address function last.1 last.2), s1)
    else (Except.ok (), s1)

/-- ModbusBuffer::checkRecording — stop recording; when the cached
snapshot equals the record vector, clear the record and report true;
otherwise swap the cached snapshot with the record vector and clear the
record (so the caller's slot holds the new snapshot), reporting false.
Returns (result, new cached value, new state). -/
def checkRecording (cached : List Nat) (s : MB) : Bool × List Nat × MB :=
  let s0 := { s with recordChanges := false }
  if cached = s0.records then (true, cached, { s0 with records := [] })
  else (false, s0.records, { s0 with records := [] })

/-- Big-endian read of k payload bytes, the shared body of the read<T>
template specializations in ModbusBuffer.h (readBuffer into memory, then
ntohs / ntohl / be64toh reassembles the bytes most significant first). -/
def readBE (k : Nat) (s : MB) : Except MBError Nat × MB :=
  match readBytes k s with
  | (Except.ok ds, s1) => (Except.ok (fromBytesBE ds), s1)
  | (Except.error e, s1) => (Except.error e, s1)

/-- Two's-complement decoding of a w-bit pattern. -/
def decodeTwos (w : Nat) (u : Nat) : Int :=
  if u < 2 ^ (w - 1) then (u : Int) else (u : Int) - 2 ^ w

/-- Two's-complement w-bit pattern of an integer. -/
def encodeTwos (w : Nat) (v : Int) : Nat := (v % ((2 : Int) ^ w)).toNat

/-- Template member ModbusBuffer::write for unsigned types: convert to
big-endian byte order and append each byte through writeBuffer.  k is
sizeof(T). -/
def writeBE (s : MB) (k v : Nat) : MB := writeBytes s (toBytesBE k v)

/-- ModbusBuffer::write specializations for signed types: htons / htonl
of the two's complement pattern, then writeBuffer. -/
def writeSigned (s : MB) (k : Nat) (v : Int) : MB := writeBE s k (encodeTwos (8 * k) v)

/-- ModbusBuffer::writeI24 — append the three low bytes of the 32-bit
two's complement pattern, most significant first (the source shifts the
int32 right by 16 and 8 and truncates each result to uint8_t, which is
exactly the big-endian decomposition of the low 24 bits). -/
def writeI24 (s : MB) (v : Int) : MB := writeBE s 3 (encodeTwos 24 v)

/-- Template member ModbusBuffer::callFunction — write address, function
and argument bytes, append CRC, end-of-frame and wait-for-Rx words, and
record the request in the commanded queue. -/
def callFunction (s : MB) (address function timeout : Nat) (args : List Nat) : MB :=
  let s1 := writeBytes s (address :: function :: args)
  let s2 := writeCRC s1
  let s3 := writeEndOfFrame s2
  let s4 := writeWaitForRx s3 timeout
  { s4 with commanded := pushCommanded address function s4.commanded }

/-- Finite map on Nat keys modelled as an association list (std::map). -/
def mapLookup {α : Type} : List (Nat × α) → Nat → Option α
  | [], _ => none
  | (k, v) :: m, key => if key = k then some v else mapLookup m key

/-- Update-or-insert on the association-list map. -/
def mapInsert {α : Type} : List (Nat × α) → Nat → α → List (Nat × α)
  | [], key, v => [(key, v)]
  | (k, w) :: m, key, v => if key = k then (k, v) :: m else (k, w) :: mapInsert m key v

/-- State of an ILC object: the inherited ModbusBuffer state, the
per-address per-function cached response snapshots (_cachedResponse),
the per-address last mode map (_lastMode) and the _alwaysTrigger flag. -/
structure ILCState where
  mb : MB
  cachedResponse : List (Nat × List (Nat × List Nat))
  lastMode : List (Nat × Nat)
  alwaysTrigger : Bool
  deriving Repr, DecidableEq

/-- ILC::responseMatchCached — ensure the cache slot for
(address, func) exists (std::map operator[] default-constructs an empty
vector), run checkRecording against that slot (which writes the new
snapshot back on mismatch), and return its result conjoined with the
negation of _alwaysTrigger. -/
def responseMatchCached (address func : Nat) (st : ILCState) : Bool × ILCState :=
  let inner := (mapLookup st.cachedResponse address).getD []
  let old := (mapLookup inner func).getD []
  let (matched, newCached, mb1) := checkRecording old st.mb
  let inner1 := mapInsert inner func newCached
  (matched && !st.alwaysTrigger,
   { st with mb := mb1, cachedResponse := mapInsert st.cachedResponse address inner1 })

/-- Function-18 response handler, translated from the lambda registered
in the ILC constructor: enable recording, read mode (u8), status (u16)
and faults (u16), check the CRC, and when responseMatchCached(address, 18)
is false store the mode in _lastMode and call processServerStatus.  The
returned Option holds the arguments processServerStatus was invoked with
(none when the call was suppressed). -/
def handleFn18 (address : Nat) (st : ILCState) :
    Except MBError (Option (Nat × Nat × Nat)) × ILCState :=
  let mb0 := { st.mb with recordChanges := true }
  match readBE 1 mb0 with
  | (Except.error e, mb1) => (Except.error e, { st with mb := mb1 })
  | (Except.ok mode, mb1) =>
    match readBE 2 mb1 with
    | (Except.error e, mb2) => (Except.error e, { st with mb := mb2 })
    | (Except.ok status, mb2) =>
      match readBE 2 mb2 with
      | (Except.error e, mb3) => (Except.error e, { st with mb := mb3 })
      | (Except.ok faults, mb3) =>
        match checkCRC mb3 with
        | (Except.error e, mb4) => (Except.error e, { st with mb := mb4 })
        | (Except.ok _, mb4) =>
          let (matched, st1) := responseMatchCached address 18 { st with mb := mb4 }
          if matched then (Except.ok none, st1)
          else
            (Except.ok (some (mode, status, faults)),
             { st1 with lastMode := mapInsert st1.lastMode address mode })

/-- One iteration of ModbusBuffer::processResponse for a frame whose
function byte is 18: set the response words as the buffer, read the
address and function header bytes, call checkCommanded (18 is not a
registered error-response code, so the queue is checked against the
function itself) and run the function-18 action from the dispatch table
built in the ILC constructor.  A function byte other than 18 is outside
this model and reported as runtimeError. -/
def processFrame18 (words : List Nat) (st : ILCState) :
    Except MBError (Option (Nat × Nat × Nat)) × ILCState :=
  let mb0 := setBuffer st.mb words
  match readBE 1 mb0 with
  | (Except.error e, mb1) => (Except.error e, { st with mb := mb1 })
  | (Except.ok address, mb1) =>
    match readBE 1 mb1 with
    | (Except.error e, mb2) => (Except.error e, { st with mb := mb2 })
    | (Except.ok func, mb2) =>
      if func = 18 then
        match checkCommanded address func mb2 with
        | (Except.error e, mb3) => (Except.error e, { st with mb := mb3 })
        | (Except.ok _, mb3) => handleFn18 address { st with mb := mb3 }
      else (Except.error MBError.runtimeError, { st with mb := mb2 })

/-- Function-18 response frame as produced by the write path (as in the
repository's TestFPGA::processServerStatus): address, function 18, mode
(u8), status (u16), faults (u16), followed by the CRC words. -/
def mkResponse18 (address mode status faults : Nat) : MB :=
  writeCRC (writeBytes emptyMB
    (address :: 18 :: mode :: (toBytesBE 2 status ++ toBytesBE 2 faults)))

/-- ILC mode Standby.  Modelled from the spec: the ILCMode enumeration
lives in the ILC.h header, which is not among the source files; §6 of
the specification records the numeric values 0=Standby, 1=Disabled,
2=Enabled, 3=FirmwareUpdate, 4=Fault. -/
def ILCMode.Standby : Nat := 0

/-- ILC mode Disabled (see ILCMode.Standby for provenance). -/
def ILCMode.Disabled : Nat := 1

/-- ILC mode Enabled (see ILCMode.Standby for provenance). -/
def ILCMode.Enabled : Nat := 2

/-- ILC mode FirmwareUpdate (see ILCMode.Standby for provenance). -/
def ILCMode.FirmwareUpdate : Nat := 3

/-- ILC mode Fault (see ILCMode.Standby for provenance). -/
def ILCMode.Fault : Nat := 4

/-- Modelled from the spec: ILC::getLastMode is declared in the missing
ILC.h header; per §4.7 of the specification it returns the recorded
last mode for the address and raises std::out_of_range when none was
recorded (changeILCMode catches that case).  Modelled as an
Option-returning lookup of the last-mode map, none standing for the
out_of_range escape. -/
def getLastMode (st : ILCState) (address : Nat) : Option Nat := mapLookup st.lastMode address

/-- ILC::changeILCMode — timeout 335 µs unless the recorded last mode
and the target mode form the pair Standby/FirmwareUpdate in either
direction (100000 µs then); an unrecorded last mode keeps the default.
Issues function 65 with the mode as a u16 argument. -/
def changeILCMode (st : ILCState) (address mode : Nat) : ILCState :=
  let timeout :=
    if (getLastMode st address = some ILCMode.Standby ∧ mode = ILCMode.FirmwareUpdate) ∨
       (getLastMode st address = some ILCMode.FirmwareUpdate ∧ mode = ILCMode.Standby)
    then 100000 else 335
  { st with mb := callFunction st.mb address 65 timeout (toBytesBE 2 mode) }

/-- FIFO word produced for a payload byte by ILC::getByteInstruction. -/
def encodeWord (d : Nat) : Nat := FIFO.TX_MASK ||| (d <<< 1)

/-- CRC round-trip scenario of property P2: write the address, function
and argument bytes, append the CRC, reset the cursor, re-read the same
number of bytes and check the CRC.  Returns the result of checkCRC with
the final state. -/
def crcRoundTrip (a f : Nat) (args : List Nat) : Except MBError Unit × MB :=
  let s3 := MB.reset (writeCRC (writeBytes emptyMB (a :: f :: args)))
  match readBytes 1 s3 with
  | (Except.error e, s4) => (Except.error e, s4)
  | (Except.ok _, s4) =>
    match readBytes 1 s4 with
    | (Except.error e, s5) => (Except.error e, s5)
    | (Except.ok _, s5) =>
      match readBytes args.length s5 with
      | (Except.error e, s6) => (Except.error e, s6)
      | (Except.ok _, s6) => checkCRC s6

/-- Unsigned round-trip scenario of property P1: write a k-byte value
into an empty buffer, reset, read it back.  k = 1, 2, 4, 8 are the
uint8_t, uint16_t, uint32_t and uint64_t specializations. -/
def roundTripBE (k v : Nat) : Except MBError Nat :=
  (readBE k (MB.reset (writeBE emptyMB k v))).1

/-- Signed round-trip scenario: write a signed k-byte value, reset, read
the k bytes back and reinterpret the big-endian pattern in two's
complement.  For k = 4 the read side is the source's read<int32_t>
specialization (ntohl assigned to int32_t); the source has no
read<int8_t> or read<int16_t> specialization, so for k = 1, 2 the read
side is the same-width unsigned read composed with the two's complement
reinterpretation that the missing specialization would perform. -/
def roundTripSigned (k : Nat) (v : Int) : Except MBError Int :=
  Except.map (decodeTwos (8 * k)) (readBE k (MB.reset (writeSigned emptyMB k v))).1

/-- Round-trip scenario for writeI24: the source has no 24-bit read, so
the three payload bytes are read back raw and reinterpreted in two's
complement. -/
def roundTripI24 (v : Int) : Except MBError Int :=
  Except.map (decodeTwos 24) (readBE 3 (MB.reset (writeI24 emptyMB v))).1

/-- Round-trip scenario for float: write<float> reinterprets the float
as its 32-bit pattern and calls write<uint32_t>; read<float>
reinterprets the pattern read by read<uint32_t>.  Floats are therefore
modelled by their IEEE-754 bit patterns, which reinterpret_cast
preserves exactly. -/
def roundTripF32 (bits : Nat) : Except MBError Nat := roundTripBE 4 bits

/-- Delay round-trip scenario: writeDelay into an empty buffer, then
readDelay the word just written. -/
def delayRoundTrip (t : Nat) : Except MBError Nat :=
  (readDelay (writeDelay emptyMB t)).1

/-- Wait-for-Rx round-trip scenario: ILC::writeWaitForRx into an empty
buffer, then ILC::readWaitForRx the word just written. -/
def waitForRxRoundTrip (t : Nat) : Except MBError Nat :=
  (readWaitForRx (writeWaitForRx emptyMB t)).1

/-! Helper lemmas. -/

/-- The source loop round and the specification's description of one CRC
round agree. -/
lemma crcRound_eq (c : Nat) :
    crcRound c = if c % 2 = 1 then c / 2 ^^^ 0xA001 else c / 2 := by
  rw [crcRound, Nat.and_one_is_mod, Nat.shiftRight_eq_div_pow]
  rcases Nat.mod_two_eq_zero_or_one c with h | h <;> simp [h, Nat.pow_one]

/-- Unfolding one round of the specification's CRC step through the
source's round function. -/
lemma refStep_succ (k x : Nat) :
    modbusCRCRefStep (k + 1) x = modbusCRCRefStep k (crcRound x) := by
  rw [crcRound_eq]
  rfl

/-- The source CRC::add equals eight specification rounds after the
initial xor. -/
lemma crcAdd_eq_refStep (c d : Nat) : CRC.add c d = modbusCRCRefStep 8 (c ^^^ d) := by
  rw [show (8 : Nat) = 0 + 1 + 1 + 1 + 1 + 1 + 1 + 1 + 1 from rfl]
  rw [refStep_succ, refStep_succ, refStep_succ, refStep_succ,
      refStep_succ, refStep_succ, refStep_succ, refStep_succ]
  rfl

/-- Folding the source CRC over a byte list equals the specification
reference from any starting accumulator. -/
lemma crc_foldl_eq_ref (bytes : List Nat) :
    ∀ c, bytes.foldl CRC.add c = modbusCRCRef bytes c := by
  induction bytes with
  | nil => intro c; rfl
  | cons d ds ih =>
    intro c
    rw [List.foldl_cons, ih, crcAdd_eq_refStep]
    rfl

/-- One CRC round keeps the accumulator inside 16 bits. -/
lemma crcRound_lt (c : Nat) (h : c < 65536) : crcRound c < 65536 := by
  rw [crcRound]
  have h1 : c >>> 1 < 65536 := by
    rw [Nat.shiftRight_eq_div_pow]
    omega
  split
  · exact Nat.xor_lt_two_pow (n := 16) h1 (by norm_num)
  · exact h1

/-- CRC::add keeps the accumulator inside 16 bits for byte input. -/
lemma crcAdd_lt (c d : Nat) (hc : c < 65536) (hd : d < 256) : CRC.add c d < 65536 := by
  have h0 : c ^^^ d < 65536 := Nat.xor_lt_two_pow (n := 16) hc (by omega)
  rw [CRC.add]
  exact crcRound_lt _ (crcRound_lt _ (crcRound_lt _ (crcRound_lt _ (crcRound_lt _
    (crcRound_lt _ (crcRound_lt _ (crcRound_lt _ h0)))))))

/-- Folding CRC::add over bytes keeps the accumulator inside 16 bits. -/
lemma crc_foldl_lt (bytes : List Nat) :
    ∀ c, c < 65536 → (∀ b ∈ bytes, b < 256) → bytes.foldl CRC.add c < 65536 := by
  induction bytes with
  | nil => intro c hc _; simpa using hc
  | cons d ds ih =>
    intro c hc hb
    rw [List.foldl_cons]
    exact ih _ (crcAdd_lt c d hc (hb d (by simp))) (fun b h => hb b (by simp [h]))

/-- Recomposing the two little-endian CRC bytes recovers a 16-bit value. -/
lemma crc_bytes_recompose (c : Nat) (h : c < 65536) :
    (c &&& 0xFF) + 256 * ((c >>> 8) &&& 0xFF) = c := by
  have h1 : c &&& 0xFF = c % 256 := by
    simpa using Nat.and_pow_two_sub_one_eq_mod c 8
  have h2 : c >>> 8 = c / 256 := by
    rw [Nat.shiftRight_eq_div_pow]
  have h3 : (c / 256) &&& 0xFF = c / 256 % 256 := by
    simpa using Nat.and_pow_two_sub_one_eq_mod (c / 256) 8
  rw [h1, h2, h3]
  omega

/-- Decoding an encoded FIFO word recovers the payload byte. -/
lemma encodeWord_decode (d : Nat) (hd : d < 256) : (encodeWord d >>> 1) &&& 0xFF = d := by
  have hb : d * 2 ^ 1 < 2 ^ 9 := by
    have e1 : (2 : Nat) ^ 1 = 2 := by norm_num
    have e9 : (2 : Nat) ^ 9 = 512 := by norm_num
    rw [e1, e9]; omega
  have h1 : encodeWord d = 4608 + d * 2 := by
    rw [encodeWord, Nat.shiftLeft_eq]
    rw [show (FIFO.TX_MASK : Nat) = 2 ^ 9 * 9 from by norm_num [FIFO.TX_MASK]]
    rw [← Nat.mul_add_lt_is_or hb 9]
    norm_num
  rw [h1, Nat.shiftRight_eq_div_pow]
  have hdiv : (4608 + d * 2) / 2 ^ 1 = 2304 + d := by
    have e1 : (2 : Nat) ^ 1 = 2 := by norm_num
    rw [e1]; omega
  rw [hdiv]
  have hmask : (2304 + d) &&& 0xFF = (2304 + d) % 256 := by
    simpa using Nat.and_pow_two_sub_one_eq_mod (2304 + d) 8
  rw [hmask]
  omega

/-- An encoded FIFO word keeps the start bit clear: the low bit is 0. -/
lemma encodeWord_lt (d : Nat) (hd : d < 256) : encodeWord d < 65536 := by
  rw [encodeWord]
  refine Nat.or_lt_two_pow (n := 16) (by norm_num [FIFO.TX_MASK]) ?_
  calc d <<< 1 < 2 ^ 9 := by
        rw [Nat.shiftLeft_eq]
        omega
    _ ≤ 2 ^ 16 := by norm_num

/-- A value below 2^12 has no bits in the class nibble. -/
lemma and_high_zero (v : Nat) (hv : v < 4096) : v &&& 0xF000 = 0 := by
  apply Nat.eq_of_testBit_eq
  intro i
  rw [Nat.testBit_and]
  by_cases hi : i < 12
  · have hf : Nat.testBit 0xF000 i = false := by interval_cases i <;> decide
    simp [hf]
  · have hv2 : v < 2 ^ i := by
      calc v < 4096 := hv
        _ = 2 ^ 12 := by norm_num
        _ ≤ 2 ^ i := Nat.pow_le_pow_right (by norm_num) (by omega)
    simp [Nat.testBit_lt_two_pow hv2]

/-- A class-nibble constant is fixed by the class mask. -/
lemma class_and_high (c0 : Nat) (hc : c0 < 16) : (4096 * c0) &&& 0xF000 = 4096 * c0 := by
  interval_cases c0 <;> decide

/-- A 12-bit value ored with a class-nibble constant is their sum. -/
lemma or_class_eq_add (v c0 : Nat) (hv : v < 4096) :
    v ||| 4096 * c0 = 4096 * c0 + v := by
  have hb : v < 2 ^ 12 := by norm_num [hv]
  rw [Nat.or_comm]
  rw [show (4096 : Nat) * c0 = 2 ^ 12 * c0 from by norm_num]
  rw [← Nat.mul_add_lt_is_or hb c0]

/-- Extracting class and data fields from a class word. -/
lemma class_word_split (v c0 : Nat) (hv : v < 4096) (hc : c0 < 16) :
    (v ||| 4096 * c0) &&& 0xF000 = 4096 * c0 ∧ (v ||| 4096 * c0) &&& 0x0FFF = v := by
  constructor
  · rw [Nat.or_comm, Nat.and_distrib_right, class_and_high c0 hc, and_high_zero v hv,
        Nat.or_zero]
  · rw [or_class_eq_add v c0 hv]
    have hm : (4096 * c0 + v) &&& 0x0FFF = (4096 * c0 + v) % 4096 := by
      simpa using Nat.and_pow_two_sub_one_eq_mod (4096 * c0 + v) 12
    rw [hm]
    omega

/-- Masking with 0x0FFF is reduction modulo 4096. -/
lemma and_fff_eq_mod (x : Nat) : 0x0FFF &&& x = x % 4096 := by
  rw [Nat.and_comm]
  simpa using Nat.and_pow_two_sub_one_eq_mod x 12

/-- Every byte produced by toBytesBE is below 256. -/
lemma toBytesBE_lt (k v : Nat) : ∀ b ∈ toBytesBE k v, b < 256 := by
  induction k generalizing v with
  | zero => intro b hb; simp [toBytesBE] at hb
  | succ n ih =>
    intro b hb
    rw [toBytesBE] at hb
    rcases List.mem_cons.mp hb with h | h
    · subst h
      have h2 : v >>> (8 * n) &&& 0xFF < 2 ^ 8 :=
        Nat.and_lt_two_pow (v >>> (8 * n)) (by norm_num)
      norm_num at h2
      exact h2
    · exact ih v b h

/-- toBytesBE produces exactly k bytes. -/
lemma toBytesBE_length (k v : Nat) : (toBytesBE k v).length = k := by
  induction k generalizing v with
  | zero => rfl
  | succ n ih => rw [toBytesBE, List.length_cons, ih]

/-- Recomposing the big-endian decomposition yields the value modulo
2^(8k). -/
lemma fromBytesBE_toBytesBE (k v : Nat) :
    fromBytesBE (toBytesBE k v) = v % 2 ^ (8 * k) := by
  induction k generalizing v with
  | zero => simp [toBytesBE, fromBytesBE, Nat.mod_one]
  | succ n ih =>
    rw [toBytesBE, fromBytesBE, toBytesBE_length, ih]
    have h1 : (v >>> (8 * n)) &&& 0xFF = v / 2 ^ (8 * n) % 256 := by
      rw [Nat.shiftRight_eq_div_pow]
      simpa using Nat.and_pow_two_sub_one_eq_mod (v / 2 ^ (8 * n)) 8
    rw [h1]
    have h2 : (2 : Nat) ^ (8 * (n + 1)) = 2 ^ (8 * n) * 256 := by
      rw [show 8 * (n + 1) = 8 * n + 8 from by ring, pow_add]
      norm_num
    rw [h2, Nat.mod_mul]
    have h3 : (256 : Nat) ^ n = 2 ^ (8 * n) := by
      rw [show (256 : Nat) = 2 ^ 8 from by norm_num, ← pow_mul]
    rw [h3]
    ring

/-- Effect of writing one byte. -/
lemma writeByte_spec (s : MB) (b : Nat) :
    writeByte s b =
      { s with buffer := s.buffer ++ [encodeWord b],
               crc := CRC.add s.crc b,
               records := if s.recordChanges then s.records ++ [b] else s.records } := rfl

/-- Effect of writing a byte list: the encoded words are appended, the
CRC is folded over the bytes, and the bytes are recorded when recording
is on. -/
lemma writeBytes_spec (s : MB) (bs : List Nat) :
    writeBytes s bs =
      { s with buffer := s.buffer ++ bs.map encodeWord,
               crc := bs.foldl CRC.add s.crc,
               records := if s.recordChanges then s.records ++ bs else s.records } := by
  induction bs generalizing s with
  | nil => simp [writeBytes]
  | cons b bs ih =>
    show writeBytes (writeByte s b) bs = _
    rw [ih, writeByte_spec]
    by_cases h : s.recordChanges <;>
      simp [h, List.append_assoc, List.foldl_cons]

/-- Reading back bytes that sit in the buffer as encoded FIFO words
returns exactly those bytes, advances the cursor past them, folds them
into the CRC and (when recording) appends them to the record vector. -/
lemma readBytes_encoded (bs : List Nat) :
    ∀ (pre rest : List Nat) (s : MB),
      s.buffer = pre ++ bs.map encodeWord ++ rest →
      s.index = pre.length →
      (∀ b ∈ bs, b < 256) →
      readBytes bs.length s =
        (Except.ok bs,
         { s with index := s.index + bs.length,
                  crc := bs.foldl CRC.add s.crc,
                  records := if s.recordChanges then s.records ++ bs else s.records }) := by
  induction bs with
  | nil =>
    intro pre rest s hbuf hidx hb
    simp [readBytes]
  | cons b bs ih =>
    intro pre rest s hbuf hidx hb
    have hblt : b < 256 := hb b (by simp)
    have hlt : s.index < s.buffer.length := by
      rw [hbuf, hidx]
      simp
    have hget : s.buffer.getD s.index 0 = encodeWord b := by
      rw [hbuf, hidx, List.append_assoc, List.getD_append_right _ _ _ _ (le_refl _)]
      simp
    have hri : readInstructionByte s = (Except.ok b, { s with index := s.index + 1 }) := by
      rw [readInstructionByte, if_pos hlt, hget, encodeWord_decode b hblt]
    have hih := ih (pre ++ [encodeWord b]) rest
      (processDataCRC { s with index := s.index + 1 } b)
      (by simp [processDataCRC, hbuf, List.append_assoc])
      (by simp [processDataCRC, hidx])
      (fun x hx => hb x (by simp [hx]))
    show readBytes (bs.length + 1) s = _
    rw [readBytes, hri]
    simp only [processDataCRC] at hih ⊢
    rw [hih]
    by_cases h : s.recordChanges <;>
      simp [h, List.append_assoc, List.foldl_cons, Nat.add_assoc, Nat.add_comm 1 bs.length]

/-- Effect of writeCRC: the two little-endian CRC bytes are appended as
encoded words and the accumulator is reset. -/
lemma writeCRC_spec (s : MB) :
    writeCRC s =
      { s with buffer := s.buffer ++
                 [encodeWord (s.crc &&& 0xFF), encodeWord ((s.crc >>> 8) &&& 0xFF)],
               crc := CRC.init,
               records := if s.recordChanges then
                   s.records ++ [s.crc &&& 0xFF, (s.crc >>> 8) &&& 0xFF]
                 else s.records } := by
  rw [writeCRC]
  rw [writeByte_spec, writeByte_spec]
  by_cases h : s.recordChanges <;> simp [h, List.append_assoc]

/-- readBE over an encoded region returns the big-endian recomposition. -/
lemma readBE_encoded (k : Nat) (bs pre rest : List Nat) (s : MB) (hk : bs.length = k)
    (hbuf : s.buffer = pre ++ bs.map encodeWord ++ rest)
    (hidx : s.index = pre.length)
    (hbs : ∀ b ∈ bs, b < 256) :
    readBE k s =
      (Except.ok (fromBytesBE bs),
       { s with index := s.index + k, crc := bs.foldl CRC.add s.crc,
                records := if s.recordChanges then s.records ++ bs else s.records }) := by
  subst hk
  rw [readBE, readBytes_encoded bs pre rest s hbuf hidx hbs]

/-- readBytes over an encoded region, stated with an explicit count. -/
lemma readBytes_encoded_k (k : Nat) (bs pre rest : List Nat) (s : MB) (hk : bs.length = k)
    (hbuf : s.buffer = pre ++ bs.map encodeWord ++ rest)
    (hidx : s.index = pre.length)
    (hbs : ∀ b ∈ bs, b < 256) :
    readBytes k s =
      (Except.ok bs,
       { s with index := s.index + k, crc := bs.foldl CRC.add s.crc,
                records := if s.recordChanges then s.records ++ bs else s.records }) := by
  subst hk
  exact readBytes_encoded bs pre rest s hbuf hidx hbs

/-- Looking up a key just inserted returns the inserted value. -/
lemma mapLookup_insert_self {α : Type} (m : List (Nat × α)) (k : Nat) (v : α) :
    mapLookup (mapInsert m k v) k = some v := by
  induction m with
  | nil => simp [mapInsert, mapLookup]
  | cons p m ih =>
    rcases p with ⟨k1, v1⟩
    by_cases h : k = k1 <;> simp [mapInsert, mapLookup, h, ih]

/-- Two's complement decode inverts encode on in-range values. -/
lemma decodeTwos_encodeTwos (w : Nat) (v : Int) (hw : 1 ≤ w)
    (h1 : -(2 ^ (w - 1)) ≤ v) (h2 : v < 2 ^ (w - 1)) :
    decodeTwos w (encodeTwos w v) = v := by
  have hsplit : (2 : Int) ^ w = 2 ^ (w - 1) * 2 := by
    rw [← pow_succ]
    congr 1
    omega
  have hppos : (0 : Int) < 2 ^ (w - 1) := by positivity
  by_cases hv : 0 ≤ v
  · have hmod : v % 2 ^ w = v := Int.emod_eq_of_lt hv (by omega)
    rw [decodeTwos, encodeTwos, hmod]
    have htn : ((v.toNat : Int)) = v := Int.toNat_of_nonneg hv
    have hlt : v.toNat < 2 ^ (w - 1) := by
      have : ((v.toNat : Int)) < ((2 ^ (w - 1) : Nat) : Int) := by
        rw [htn]; push_cast; omega
      exact_mod_cast this
    rw [if_pos hlt, htn]
  · push_neg at hv
    have hmod : v % 2 ^ w = v + 2 ^ w := by
      have e1 : (v + 2 ^ w) % 2 ^ w = v % 2 ^ w := by
        simp
      have e2 : (v + 2 ^ w) % 2 ^ w = v + 2 ^ w :=
        Int.emod_eq_of_lt (by omega) (by omega)
      omega
    rw [decodeTwos, encodeTwos, hmod]
    have hnn : (0 : Int) ≤ v + 2 ^ w := by omega
    have htn : (((v + 2 ^ w).toNat : Int)) = v + 2 ^ w := Int.toNat_of_nonneg hnn
    have hge : ¬((v + 2 ^ w).toNat < 2 ^ (w - 1)) := by
      intro hc
      have : (((v + 2 ^ w).toNat : Int)) < ((2 ^ (w - 1) : Nat) : Int) := by exact_mod_cast hc
      rw [htn] at this
      push_cast at this
      omega
    rw [if_neg hge, htn]
    omega

/-- Encoded two's complement patterns are within width. -/
lemma encodeTwos_lt (w : Nat) (v : Int) : encodeTwos w v < 2 ^ w := by
  rw [encodeTwos]
  have hpos : (0 : Int) < 2 ^ w := by positivity
  have h1 : v % 2 ^ w < 2 ^ w := Int.emod_lt_of_pos v hpos
  have h2 : 0 ≤ v % 2 ^ w := Int.emod_nonneg v (by positivity)
  have : ((v % 2 ^ w).toNat : Int) < ((2 ^ w : Nat) : Int) := by
    rw [Int.toNat_of_nonneg h2]
    push_cast
    omega
  exact_mod_cast this

/-- The getReadData loop only terminates by throwing EndOfBuffer once the
loop variable trails the cursor. -/
lemma getReadDataLoop_error (buf acc : List Nat) (i index : Nat) (h : i < index) :
    (getReadDataLoop buf acc i index).1 = Except.error MBError.endOfBuffer := by
  rw [getReadDataLoop, if_pos h]
  by_cases hl : index < buf.length
  · rw [if_pos hl]
    exact getReadDataLoop_error buf _ (i + 1) (index + 1) (by omega)
  · rw [if_neg hl]
termination_by buf.length - index

/-- readDelay on a buffer whose current word is a class word. -/
lemma readDelay_word (s : MB) (v c0 : Nat) (hv : v < 4096) (hc : c0 < 16)
    (hbuf : s.buffer.getD s.index 0 = v ||| 4096 * c0) :
    readDelay s =
      (if 4096 * c0 = FIFO.DELAY then (Except.ok v, { s with index := s.index + 1 })
       else if 4096 * c0 = FIFO.LONG_DELAY then
         (Except.ok (v * 1000), { s with index := s.index + 1 })
       else (Except.error MBError.runtimeError, s)) := by
  have hdata : 0x0FFF &&& (v ||| 4096 * c0) = v := by
    rw [and_fff_eq_mod, or_class_eq_add v c0 hv]
    omega
  rw [readDelay, hbuf, (class_word_split v c0 hv hc).1, hdata]

/-- ILC::readWaitForRx on a buffer whose current word is a class word. -/
lemma readWaitForRx_word (s : MB) (v c0 : Nat) (hv : v < 4096) (hc : c0 < 16)
    (hbuf : s.buffer.getD s.index 0 = v ||| 4096 * c0) :
    readWaitForRx s =
      (if 4096 * c0 = FIFO.TX_WAIT_RX then (Except.ok v, { s with index := s.index + 1 })
       else if 4096 * c0 = FIFO.TX_WAIT_LONG_RX then
         (Except.ok (v * 1000), { s with index := s.index + 1 })
       else (Except.error MBError.runtimeError, s)) := by
  have hdata : 0x0FFF &&& (v ||| 4096 * c0) = v := by
    rw [and_fff_eq_mod, or_class_eq_add v c0 hv]
    omega
  rw [readWaitForRx, hbuf, (class_word_split v c0 hv hc).1, hdata]

/-! Claim theorems. -/

/-- C5: For every sequence of payload bytes, the CRC accumulator equals
the reference Modbus CRC-16: starting from 0xFFFF, for each byte d the
state is xored with d and then, 8 times, shifted right by one and xored
with 0xA001 when the shifted-out bit was 1; the getter returns exactly
this value with no final xor. -/
theorem crc_accumulator_is_reference_modbus_crc16 (bytes : List Nat) :
    CRC.get (crcState bytes) = modbusCRCRef bytes 0xFFFF := by
  rw [CRC.get, crcState, crc_foldl_eq_ref]
  rfl

/-- C1 counterexample: pushCommanded does enqueue the group-broadcast
address 148 (the guard (0 < a ∧ a < 248) ∨ a = 255 admits 148), so the
claim that the broadcast addresses 0, 148, 149 and 250 are never
enqueued is false at address 148. -/
theorem pushCommanded_enqueues_broadcast_148 :
    pushCommanded 148 17 [] = [(148, 17)] := by decide

/-- C1 (amended): pushCommanded(a, f) enqueues (a, f) if and only if
1 ≤ a ≤ 247 or a = 255; in particular the broadcast addresses 0 and 250
are never enqueued, but the group-broadcast addresses 148 and 149 are
always enqueued. -/
theorem pushCommanded_enqueues_iff (a f : Nat) (q : List (Nat × Nat)) :
    pushCommanded a f q = (if (1 ≤ a ∧ a ≤ 247) ∨ a = 255 then q ++ [(a, f)] else q) ∧
    pushCommanded 0 f q = q ∧
    pushCommanded 250 f q = q ∧
    pushCommanded 148 f q = q ++ [(148, f)] ∧
    pushCommanded 149 f q = q ++ [(149, f)] ∧
    pushCommanded 255 f q = q ++ [(255, f)] := by
  refine ⟨?_, ?_, ?_, ?_, ?_, ?_⟩
  · rw [pushCommanded]
    exact if_congr (by omega) rfl rfl
  all_goals norm_num [pushCommanded]

/-- C7: checkCommanded(a, f) removes the front element of the request
ledger and succeeds iff that element equals (a, f); on an empty ledger
it fails with UnmatchedFunction(a, f); on a mismatch it fails with
UnmatchedFunction carrying (a, f) and the expected pair, the front
element being consumed in that case as well. -/
theorem checkCommanded_pops_and_matches (a f : Nat) (s : MB) :
    (s.commanded = [] →
      checkCommanded a f s = (Except.error (MBError.unmatchedFunction a f), s)) ∧
    (∀ x y rest, s.commanded = (x, y) :: rest →
      (checkCommanded a f s).2 = { s with commanded := rest } ∧
      ((x, y) = (a, f) →
        checkCommanded a f s = (Except.ok (), { s with commanded := rest })) ∧
      ((x, y) ≠ (a, f) →
        checkCommanded a f s =
          (Except.error (MBError.unmatchedFunctionExpected a f x y),
           { s with commanded := rest }))) := by
  constructor
  · intro h
    rw [checkCommanded, h]
  · intro x y rest h
    have hck : checkCommanded a f s =
        (if x ≠ a ∨ y ≠ f then
          (Except.error (MBError.unmatchedFunctionExpected a f x y),
           { s with commanded := rest })
         else (Except.ok (), { s with commanded := rest })) := by
      rw [checkCommanded, h]
    refine ⟨?_, ?_, ?_⟩
    · rw [hck]
      by_cases hc : x ≠ a ∨ y ≠ f <;> simp [hc]
    · intro hxy
      have hx : x = a := congrArg Prod.fst hxy
      have hy : y = f := congrArg Prod.snd hxy
      rw [hck, if_neg (by simp [hx, hy])]
    · intro hxy
      have hc : x ≠ a ∨ y ≠ f := by
        by_cases hx : x = a
        · right
          intro hy
          exact hxy (by rw [hx, hy])
        · left
          exact hx
      rw [hck, if_pos hc]

/-- C7 witness: a concrete mismatched pop consumes the front and reports
the expected pair. -/
theorem checkCommanded_pops_and_matches_witness :
    checkCommanded 8 17 { emptyMB with commanded := [(9, 18)] } =
      (Except.error (MBError.unmatchedFunctionExpected 8 17 9 18),
       { emptyMB with commanded := [] }) := by
  have h := (checkCommanded_pops_and_matches 8 17
    { emptyMB with commanded := [(9, 18)] }).2 9 18 [] rfl
  exact h.2.2 (by decide)

/-- C8: checkRecording(c) turns recording off; when the record equals
the cached snapshot it leaves the snapshot unchanged, empties the
record and returns true; otherwise the caller's slot receives the new
snapshot (the record), the record is emptied, and it returns false. -/
theorem checkRecording_change_detection (cached : List Nat) (s : MB) :
    (checkRecording cached s).2.2.recordChanges = false ∧
    (cached = s.records →
      checkRecording cached s =
        (true, cached, { s with recordChanges := false, records := [] })) ∧
    (cached ≠ s.records →
      checkRecording cached s =
        (false, s.records, { s with recordChanges := false, records := [] })) := by
  refine ⟨?_, ?_, ?_⟩
  · by_cases h : cached = s.records <;> simp [checkRecording, h]
  · intro h
    simp [checkRecording, h]
  · intro h
    simp [checkRecording, h]

/-- C8 witness: a concrete mismatch hands the new snapshot to the caller
and clears the record. -/
theorem checkRecording_change_detection_witness :
    checkRecording [1] { emptyMB with recordChanges := true, records := [2] } =
      (false, [2], { emptyMB with recordChanges := false, records := [] }) := by
  exact (checkRecording_change_detection [1]
    { emptyMB with recordChanges := true, records := [2] }).2.2 (by decide)

/-- C10: For every buffer state and every length with 1 ≤ length ≤
current cursor, getReadData never returns normally — the loop bound is
the advancing cursor itself, so reading continues until EndOfBuffer is
raised; for length = 0 the empty byte vector is returned. -/
theorem getReadData_overruns (s : MB) (len : Nat) :
    (1 ≤ len → len ≤ s.index →
      (getReadData s len).1 = Except.error MBError.endOfBuffer) ∧
    getReadData s 0 = (Except.ok [], s) := by
  constructor
  · intro h1 h2
    rw [getReadData, if_pos h2]
    exact getReadDataLoop_error s.buffer [] (s.index - len) s.index (by omega)
  · rw [getReadData, if_pos (Nat.zero_le _), Nat.sub_zero, getReadDataLoop,
        if_neg (lt_irrefl s.index)]

/-- C10 witness: a concrete in-range length raises EndOfBuffer. -/
theorem getReadData_overruns_witness :
    1 ≤ 1 ∧ 1 ≤ (2 : Nat) ∧
    (getReadData { emptyMB with buffer := [0x1202, 0x1204], index := 2 } 1).1 =
      Except.error MBError.endOfBuffer :=
  ⟨le_refl 1, by norm_num,
   (getReadData_overruns { emptyMB with buffer := [0x1202, 0x1204], index := 2 } 1).1
     (le_refl 1) (by decide)⟩

/-- C9 counterexample: for t = 4096000 the delay round trip yields 1000,
not ((t/1000)+1)*1000 = 4097000 — the 12-bit mask in writeDelay wraps
the stored count. -/
theorem delayRoundTrip_mask_counterexample :
    delayRoundTrip 4096000 = Except.ok 1000 ∧
    (4096000 / 1000 + 1) * 1000 = 4097000 ∧ (1000 : Nat) ≠ 4097000 := by
  refine ⟨rfl, by norm_num, by norm_num⟩

/-- C9 (amended): for t ≤ 0x0FFF the delay and wait-for-Rx round trips
return exactly t; for t > 0x0FFF they return (((t/1000)+1) mod 4096)·1000
— which equals ((t/1000)+1)·1000 whenever t < 4095000 (for example
36500 becomes 37000) — and never the original t. -/
theorem delay_waitforrx_roundtrip_amended (t : Nat) (ht : t < 4294967296) :
    (t ≤ 0x0FFF →
      delayRoundTrip t = Except.ok t ∧ waitForRxRoundTrip t = Except.ok t) ∧
    (0x0FFF < t →
      delayRoundTrip t = Except.ok ((t / 1000 + 1) % 4096 * 1000) ∧
      waitForRxRoundTrip t = Except.ok ((t / 1000 + 1) % 4096 * 1000) ∧
      (t / 1000 + 1) % 4096 * 1000 ≠ t ∧
      (t < 4095000 → (t / 1000 + 1) % 4096 = t / 1000 + 1)) := by
  constructor
  · intro hle
    have hv : t < 4096 := by omega
    constructor
    · have hbuf : (writeDelay emptyMB t).buffer.getD (writeDelay emptyMB t).index 0 =
          t ||| 4096 * 4 := by
        rw [writeDelay, if_neg (by omega)]
        norm_num [FIFO.DELAY, emptyMB]
      rw [delayRoundTrip, readDelay_word _ t 4 hv (by norm_num) hbuf,
          if_pos (by norm_num [FIFO.DELAY])]
    · have hbuf : (writeWaitForRx emptyMB t).buffer.getD (writeWaitForRx emptyMB t).index 0 =
          t ||| 4096 * 6 := by
        rw [writeWaitForRx, if_neg (by omega)]
        norm_num [FIFO.TX_WAIT_RX, emptyMB]
      rw [waitForRxRoundTrip, readWaitForRx_word _ t 6 hv (by norm_num) hbuf,
          if_pos (by norm_num [FIFO.TX_WAIT_RX])]
  · intro hgt
    have hv : (t / 1000 + 1) % 4096 < 4096 := Nat.mod_lt _ (by norm_num)
    refine ⟨?_, ?_, by omega, by omega⟩
    · have hbuf : (writeDelay emptyMB t).buffer.getD (writeDelay emptyMB t).index 0 =
          ((t / 1000 + 1) % 4096) ||| 4096 * 5 := by
        rw [writeDelay, if_pos (by omega), and_fff_eq_mod]
        norm_num [FIFO.LONG_DELAY, emptyMB]
      rw [delayRoundTrip, readDelay_word _ _ 5 hv (by norm_num) hbuf,
          if_neg (by norm_num [FIFO.DELAY]), if_pos (by norm_num [FIFO.LONG_DELAY])]
    · have hbuf : (writeWaitForRx emptyMB t).buffer.getD (writeWaitForRx emptyMB t).index 0 =
          ((t / 1000 + 1) % 4096) ||| 4096 * 9 := by
        rw [writeWaitForRx, if_pos (by omega), and_fff_eq_mod]
        norm_num [FIFO.TX_WAIT_LONG_RX, emptyMB]
      rw [waitForRxRoundTrip, readWaitForRx_word _ _ 9 hv (by norm_num) hbuf,
          if_neg (by norm_num [FIFO.TX_WAIT_RX]),
          if_pos (by norm_num [FIFO.TX_WAIT_LONG_RX])]

/-- C9 witness: the spec's own example 36500 → 37000, through the
amended theorem. -/
theorem delay_waitforrx_roundtrip_amended_witness :
    delayRoundTrip 36500 = Except.ok 37000 ∧
    waitForRxRoundTrip 36500 = Except.ok 37000 := by
  have h := (delay_waitforrx_roundtrip_amended 36500 (by norm_num)).2 (by norm_num)
  exact ⟨by rw [h.1], by rw [h.2.1]⟩

/-- C6: changeILCMode(a, m) appends TX_WAIT_LONG_RX with low 12 bits 101
(the encoding of a 100000 µs timeout) exactly when the recorded last
mode of a and m form the pair Standby/FirmwareUpdate in either
direction; in every other case — including when no last mode is
recorded for a — it appends TX_WAIT_RX with value 335. -/
theorem changeILCMode_timeout (st : ILCState) (address mode : Nat) (hm : mode < 65536) :
    (changeILCMode st address mode).mb.buffer.getLast? =
      some (if (getLastMode st address = some ILCMode.Standby ∧ mode = ILCMode.FirmwareUpdate) ∨
               (getLastMode st address = some ILCMode.FirmwareUpdate ∧ mode = ILCMode.Standby)
            then FIFO.TX_WAIT_LONG_RX ||| 101
            else FIFO.TX_WAIT_RX ||| 335) := by
  rw [changeILCMode]
  by_cases hcond :
      (getLastMode st address = some ILCMode.Standby ∧ mode = ILCMode.FirmwareUpdate) ∨
      (getLastMode st address = some ILCMode.FirmwareUpdate ∧ mode = ILCMode.Standby)
  · rw [if_pos hcond, if_pos hcond]
    simp only [callFunction, writeWaitForRx, if_pos (show 100000 > 0x0FFF by norm_num)]
    rw [List.getLast?_concat]
    decide
  · rw [if_neg hcond, if_neg hcond]
    simp only [callFunction, writeWaitForRx,
      if_neg (show ¬ (335 > 0x0FFF) by norm_num)]
    rw [List.getLast?_concat]
    decide

/-- C6 witness: a recorded Standby last mode and a FirmwareUpdate target
produce the long wait word 0x9065. -/
theorem changeILCMode_timeout_witness :
    (changeILCMode
        { mb := emptyMB, cachedResponse := [], lastMode := [(5, 0)], alwaysTrigger := false }
        5 3).mb.buffer.getLast? = some (FIFO.TX_WAIT_LONG_RX ||| 101) := by
  rw [changeILCMode_timeout
    { mb := emptyMB, cachedResponse := [], lastMode := [(5, 0)], alwaysTrigger := false }
    5 3 (by norm_num)]
  decide

/-- Round trip of a k-byte unsigned value through the encoded buffer. -/
lemma roundTripBE_ok (k v : Nat) (hv : v < 2 ^ (8 * k)) :
    roundTripBE k v = Except.ok v := by
  have hbs := toBytesBE_lt k v
  have hlen := toBytesBE_length k v
  have hw : MB.reset (writeBE emptyMB k v) =
      { emptyMB with buffer := (toBytesBE k v).map encodeWord } := by
    rw [writeBE, writeBytes_spec]
    simp [MB.reset, emptyMB]
  rw [roundTripBE, hw,
      readBE_encoded k (toBytesBE k v) [] [] _ hlen (by simp) rfl hbs]
  show Except.ok (fromBytesBE (toBytesBE k v)) = Except.ok v
  rw [fromBytesBE_toBytesBE, Nat.mod_eq_of_lt hv]

/-- Round trip of a k-byte signed value: the two's complement pattern
travels as unsigned bytes and decodes back to the value. -/
lemma roundTripSigned_ok (k : Nat) (v : Int) (hk : 1 ≤ k)
    (h1 : -(2 ^ (8 * k - 1)) ≤ v) (h2 : v < 2 ^ (8 * k - 1)) :
    roundTripSigned k v = Except.ok v := by
  have henc : encodeTwos (8 * k) v < 2 ^ (8 * k) := encodeTwos_lt _ v
  have hrb : (readBE k (MB.reset (writeBE emptyMB k (encodeTwos (8 * k) v)))).1 =
      Except.ok (encodeTwos (8 * k) v) := by
    have h := roundTripBE_ok k (encodeTwos (8 * k) v) henc
    rw [roundTripBE] at h
    exact h
  rw [roundTripSigned, writeSigned, hrb]
  show Except.ok (decodeTwos (8 * k) (encodeTwos (8 * k) v)) = Except.ok v
  rw [decodeTwos_encodeTwos (8 * k) v (by omega) h1 h2]

/-- C3: writing a value of a supported scalar type into an empty buffer,
resetting, and reading it back yields the value again: u8, u16, u32 and
u64 through their read/write specializations; float through its 32-bit
IEEE-754 pattern (reinterpret_cast preserves the bits); i32 through
read<int32_t>; i8, i16 and i24 have write-only specializations in the
source, and their payload bytes are recovered exactly by the same-width
unsigned read, with the two's complement reinterpretation returning the
original value. -/
theorem write_read_roundtrip_supported_types :
    (∀ v : Nat, v < 2 ^ 8 → roundTripBE 1 v = Except.ok v) ∧
    (∀ v : Nat, v < 2 ^ 16 → roundTripBE 2 v = Except.ok v) ∧
    (∀ v : Nat, v < 2 ^ 32 → roundTripBE 4 v = Except.ok v) ∧
    (∀ v : Nat, v < 2 ^ 64 → roundTripBE 8 v = Except.ok v) ∧
    (∀ bits : Nat, bits < 2 ^ 32 → roundTripF32 bits = Except.ok bits) ∧
    (∀ v : Int, -(2 ^ 7) ≤ v → v < 2 ^ 7 → roundTripSigned 1 v = Except.ok v) ∧
    (∀ v : Int, -(2 ^ 15) ≤ v → v < 2 ^ 15 → roundTripSigned 2 v = Except.ok v) ∧
    (∀ v : Int, -(2 ^ 31) ≤ v → v < 2 ^ 31 → roundTripSigned 4 v = Except.ok v) ∧
    (∀ v : Int, -(2 ^ 23) ≤ v → v < 2 ^ 23 → roundTripI24 v = Except.ok v) := by
  refine ⟨fun v hv => roundTripBE_ok 1 v hv,
          fun v hv => roundTripBE_ok 2 v hv,
          fun v hv => roundTripBE_ok 4 v hv,
          fun v hv => roundTripBE_ok 8 v hv,
          fun bits hb => roundTripBE_ok 4 bits hb,
          fun v h1 h2 => roundTripSigned_ok 1 v (by norm_num) h1 h2,
          fun v h1 h2 => roundTripSigned_ok 2 v (by norm_num) h1 h2,
          fun v h1 h2 => roundTripSigned_ok 4 v (by norm_num) h1 h2,
          fun v h1 h2 => roundTripSigned_ok 3 v (by norm_num) h1 h2⟩

/-- C3 witness: concrete round trips for each supported type. -/
theorem write_read_roundtrip_witness :
    roundTripBE 1 0xAB = Except.ok 0xAB ∧
    roundTripBE 2 0xBEEF = Except.ok 0xBEEF ∧
    roundTripBE 4 0xDEADBEEF = Except.ok 0xDEADBEEF ∧
    roundTripBE 8 0x0123456789ABCDEF = Except.ok 0x0123456789ABCDEF ∧
    roundTripF32 0x40490FDB = Except.ok 0x40490FDB ∧
    roundTripSigned 1 (-5) = Except.ok (-5) ∧
    roundTripSigned 2 (-1234) = Except.ok (-1234) ∧
    roundTripSigned 4 (-123456) = Except.ok (-123456) ∧
    roundTripI24 (-70000) = Except.ok (-70000) := by
  obtain ⟨h1, h2, h3, h4, h5, h6, h7, h8, h9⟩ := write_read_roundtrip_supported_types
  exact ⟨h1 _ (by norm_num), h2 _ (by norm_num), h3 _ (by norm_num), h4 _ (by norm_num),
    h5 _ (by norm_num), h6 _ (by norm_num) (by norm_num), h7 _ (by norm_num) (by norm_num),
    h8 _ (by norm_num) (by norm_num), h9 _ (by norm_num) (by norm_num)⟩

/-- C2: after writing the address byte, function byte and argument
bytes and appending the CRC via writeCRC, resetting the cursor and
re-reading the same bytes followed by checkCRC raises no error — the
two little-endian CRC bytes always match the CRC re-accumulated over
the same payload on read. -/
theorem crc_roundtrip_no_error (a f : Nat) (args : List Nat)
    (ha : a < 256) (hf : f < 256) (hargs : ∀ b ∈ args, b < 256) :
    (crcRoundTrip a f args).1 = Except.ok () := by
  have hplt : ∀ b ∈ a :: f :: args, b < 256 := by
    intro b hb
    rcases List.mem_cons.mp hb with h | hb2
    · subst h; exact ha
    rcases List.mem_cons.mp hb2 with h | hb3
    · subst h; exact hf
    · exact hargs b hb3
  have hclt : (a :: f :: args).foldl CRC.add CRC.init < 65536 :=
    crc_foldl_lt _ CRC.init (by norm_num [CRC.init]) hplt
  have hd0 : (a :: f :: args).foldl CRC.add CRC.init &&& 0xFF < 256 :=
    lt_of_lt_of_le (Nat.and_lt_two_pow _ (show (0xFF : Nat) < 2 ^ 8 by norm_num))
      (by norm_num)
  have hd1 : ((a :: f :: args).foldl CRC.add CRC.init >>> 8) &&& 0xFF < 256 :=
    lt_of_lt_of_le (Nat.and_lt_two_pow _ (show (0xFF : Nat) < 2 ^ 8 by norm_num))
      (by norm_num)
  set cc := (a :: f :: args).foldl CRC.add CRC.init with hcc
  set B := (a :: f :: args).map encodeWord ++
    [encodeWord (cc &&& 0xFF), encodeWord ((cc >>> 8) &&& 0xFF)] with hB
  have hs3 : MB.reset (writeCRC (writeBytes emptyMB (a :: f :: args))) =
      ⟨B, 0, CRC.init, false, [], []⟩ := by
    rw [writeBytes_spec, writeCRC_spec]
    simp [MB.reset, emptyMB, hB, hcc]
  have h1 : readBytes 1 ⟨B, 0, CRC.init, false, [], []⟩ =
      (Except.ok [a], ⟨B, 1, CRC.add CRC.init a, false, [], []⟩) := by
    have h := readBytes_encoded_k 1 [a] []
      ((f :: args).map encodeWord ++
        [encodeWord (cc &&& 0xFF), encodeWord ((cc >>> 8) &&& 0xFF)])
      ⟨B, 0, CRC.init, false, [], []⟩
      rfl (by rw [hB]; simp) rfl (by intro b hb; simp at hb; omega)
    simpa using h
  have h2 : readBytes 1 ⟨B, 1, CRC.add CRC.init a, false, [], []⟩ =
      (Except.ok [f],
       ⟨B, 2, CRC.add (CRC.add CRC.init a) f, false, [], []⟩) := by
    have h := readBytes_encoded_k 1 [f] [encodeWord a]
      (args.map encodeWord ++
        [encodeWord (cc &&& 0xFF), encodeWord ((cc >>> 8) &&& 0xFF)])
      ⟨B, 1, CRC.add CRC.init a, false, [], []⟩
      rfl (by rw [hB]; simp) rfl (by intro b hb; simp at hb; omega)
    simpa using h
  have h3 : readBytes args.length
      ⟨B, 2, CRC.add (CRC.add CRC.init a) f, false, [], []⟩ =
      (Except.ok args, ⟨B, 2 + args.length, cc, false, [], []⟩) := by
    have h := readBytes_encoded_k args.length args [encodeWord a, encodeWord f]
      [encodeWord (cc &&& 0xFF), encodeWord ((cc >>> 8) &&& 0xFF)]
      ⟨B, 2, CRC.add (CRC.add CRC.init a) f, false, [], []⟩
      rfl (by rw [hB]; simp) rfl hargs
    simpa [hcc] using h
  have h4 : readBytes 2 ⟨B, 2 + args.length, cc, false, [], []⟩ =
      (Except.ok [cc &&& 0xFF, (cc >>> 8) &&& 0xFF],
       ⟨B, 2 + args.length + 2,
        [cc &&& 0xFF, (cc >>> 8) &&& 0xFF].foldl CRC.add cc, false, [], []⟩) := by
    have h := readBytes_encoded_k 2 [cc &&& 0xFF, (cc >>> 8) &&& 0xFF]
      ((a :: f :: args).map encodeWord) []
      ⟨B, 2 + args.length, cc, false, [], []⟩
      rfl (by rw [hB]; simp)
      (by simp [List.length_map]; omega)
      (by intro b hb; simp at hb; omega)
    simpa using h
  have hchk : (checkCRC ⟨B, 2 + args.length, cc, false, [], []⟩).1 = Except.ok () := by
    rw [checkCRC]
    rw [show ({ (⟨B, 2 + args.length, cc, false, [], []⟩ : MB) with
          recordChanges := false } : MB) =
        ⟨B, 2 + args.length, cc, false, [], []⟩ from rfl]
    rw [h4]
    have hrec : (cc &&& 0xFF) + 256 * ((cc >>> 8) &&& 0xFF) = cc :=
      crc_bytes_recompose cc hclt
    simp [hrec]
  rw [crcRoundTrip]
  rw [hs3, h1]
  dsimp only
  rw [h2]
  dsimp only
  rw [h3]
  dsimp only
  exact hchk

/-- C2 witness: a concrete frame round-trips its CRC. -/
theorem crc_roundtrip_no_error_witness :
    (crcRoundTrip 5 17 [1, 2]).1 = Except.ok () :=
  crc_roundtrip_no_error 5 17 [1, 2] (by norm_num) (by norm_num) (by decide)

/-- Buffer contents of a function-18 response frame. -/
lemma mkResponse18_buffer (address mode status faults : Nat) :
    (mkResponse18 address mode status faults).buffer =
      (address :: 18 :: mode :: (toBytesBE 2 status ++ toBytesBE 2 faults)).map encodeWord ++
      [encodeWord ((address :: 18 :: mode ::
          (toBytesBE 2 status ++ toBytesBE 2 faults)).foldl CRC.add CRC.init &&& 0xFF),
       encodeWord (((address :: 18 :: mode ::
          (toBytesBE 2 status ++ toBytesBE 2 faults)).foldl CRC.add CRC.init >>> 8) &&& 0xFF)] := by
  rw [mkResponse18, writeBytes_spec, writeCRC_spec]
  simp [emptyMB]

/-- responseMatchCached when the cached snapshot equals the record. -/
lemma responseMatchCached_eq (address func : Nat) (st : ILCState)
    (hold : (mapLookup ((mapLookup st.cachedResponse address).getD []) func).getD [] =
      st.mb.records) :
    responseMatchCached address func st =
      (!st.alwaysTrigger,
       { st with
           mb := { st.mb with recordChanges := false, records := [] },
           cachedResponse := mapInsert st.cachedResponse address
             (mapInsert ((mapLookup st.cachedResponse address).getD []) func
               ((mapLookup ((mapLookup st.cachedResponse address).getD []) func).getD [])) }) := by
  rw [responseMatchCached, checkRecording]
  rw [if_pos (by simpa using hold)]
  simp

/-- responseMatchCached when the cached snapshot differs from the
record: the cache slot receives the new snapshot and the result is
false. -/
lemma responseMatchCached_ne (address func : Nat) (st : ILCState)
    (hold : (mapLookup ((mapLookup st.cachedResponse address).getD []) func).getD [] ≠
      st.mb.records) :
    responseMatchCached address func st =
      (false,
       { st with
           mb := { st.mb with recordChanges := false, records := [] },
           cachedResponse := mapInsert st.cachedResponse address
             (mapInsert ((mapLookup st.cachedResponse address).getD []) func
               st.mb.records) }) := by
  rw [responseMatchCached, checkRecording]
  rw [if_neg (by simpa using hold)]
  simp

/-- Dispatch of a well-formed function-18 response: the header is read
and matched against the ledger, the payload is parsed and recorded, the
CRC checks out, and the result is decided by responseMatchCached on the
recorded payload bytes. -/
lemma processFrame18_core (address mode status faults : Nat) (st : ILCState)
    (rest : List (Nat × Nat))
    (ha : address < 256) (hm : mode < 256) (hst : status < 65536) (hfa : faults < 65536)
    (hrec : st.mb.recordChanges = false) (hrecs : st.mb.records = [])
    (hq : st.mb.commanded = (address, 18) :: rest) :
    processFrame18 (mkResponse18 address mode status faults).buffer st =
      (let m4 : MB :=
        { buffer := (mkResponse18 address mode status faults).buffer,
          index := 9, crc := CRC.init, recordChanges := false,
          records := mode :: (toBytesBE 2 status ++ toBytesBE 2 faults),
          commanded := rest }
       let r := responseMatchCached address 18 { st with mb := m4 }
       if r.1 then (Except.ok none, r.2)
       else (Except.ok (some (mode, status, faults)),
             { r.2 with lastMode := mapInsert r.2.lastMode address mode })) := by
  have hP : ∀ b ∈ address :: 18 :: mode :: (toBytesBE 2 status ++ toBytesBE 2 faults),
      b < 256 := by
    intro b hb
    rcases List.mem_cons.mp hb with h | hb2
    · subst h; exact ha
    rcases List.mem_cons.mp hb2 with h | hb3
    · subst h; norm_num
    rcases List.mem_cons.mp hb3 with h | hb4
    · subst h; exact hm
    rcases List.mem_append.mp hb4 with h | h
    · exact toBytesBE_lt 2 status b h
    · exact toBytesBE_lt 2 faults b h
  rw [mkResponse18_buffer]
  set P := address :: 18 :: mode :: (toBytesBE 2 status ++ toBytesBE 2 faults) with hPdef
  set cc := P.foldl CRC.add CRC.init with hccdef
  set B := P.map encodeWord ++
    [encodeWord (cc &&& 0xFF), encodeWord ((cc >>> 8) &&& 0xFF)] with hBdef
  have hcclt : cc < 65536 := crc_foldl_lt P CRC.init (by norm_num [CRC.init]) hP
  have h1 : readBE 1 (⟨B, 0, CRC.init, false, [], (address, 18) :: rest⟩ : MB) =
      (Except.ok address,
       ⟨B, 1, CRC.add CRC.init address, false, [], (address, 18) :: rest⟩) := by
    have h := readBE_encoded 1 [address] []
      ((18 :: mode :: (toBytesBE 2 status ++ toBytesBE 2 faults)).map encodeWord ++
        [encodeWord (cc &&& 0xFF), encodeWord ((cc >>> 8) &&& 0xFF)])
      ⟨B, 0, CRC.init, false, [], (address, 18) :: rest⟩
      rfl (by rw [hBdef, hPdef]; simp) rfl (by intro b hb; simp at hb; omega)
    simpa [fromBytesBE] using h
  have h2 : readBE 1 (⟨B, 1, CRC.add CRC.init address, false, [],
      (address, 18) :: rest⟩ : MB) =
      (Except.ok 18,
       ⟨B, 2, CRC.add (CRC.add CRC.init address) 18, false, [],
        (address, 18) :: rest⟩) := by
    have h := readBE_encoded 1 [18] [encodeWord address]
      ((mode :: (toBytesBE 2 status ++ toBytesBE 2 faults)).map encodeWord ++
        [encodeWord (cc &&& 0xFF), encodeWord ((cc >>> 8) &&& 0xFF)])
      ⟨B, 1, CRC.add CRC.init address, false, [], (address, 18) :: rest⟩
      rfl (by rw [hBdef, hPdef]; simp) rfl (by intro b hb; simp at hb; omega)
    simpa [fromBytesBE] using h
  have h3 : readBE 1 (⟨B, 2, CRC.add (CRC.add CRC.init address) 18, true, [],
      rest⟩ : MB) =
      (Except.ok mode,
       ⟨B, 3, CRC.add (CRC.add (CRC.add CRC.init address) 18) mode, true, [mode],
        rest⟩) := by
    have h := readBE_encoded 1 [mode] [encodeWord address, encodeWord 18]
      ((toBytesBE 2 status ++ toBytesBE 2 faults).map encodeWord ++
        [encodeWord (cc &&& 0xFF), encodeWord ((cc >>> 8) &&& 0xFF)])
      ⟨B, 2, CRC.add (CRC.add CRC.init address) 18, true, [], rest⟩
      rfl (by rw [hBdef, hPdef]; simp) rfl (by intro b hb; simp at hb; omega)
    simpa [fromBytesBE] using h
  have h4 : readBE 2 (⟨B, 3, CRC.add (CRC.add (CRC.add CRC.init address) 18) mode,
      true, [mode], rest⟩ : MB) =
      (Except.ok status,
       ⟨B, 5,
        (toBytesBE 2 status).foldl CRC.add
          (CRC.add (CRC.add (CRC.add CRC.init address) 18) mode),
        true, mode :: toBytesBE 2 status, rest⟩) := by
    have h := readBE_encoded 2 (toBytesBE 2 status)
      [encodeWord address, encodeWord 18, encodeWord mode]
      ((toBytesBE 2 faults).map encodeWord ++
        [encodeWord (cc &&& 0xFF), encodeWord ((cc >>> 8) &&& 0xFF)])
      ⟨B, 3, CRC.add (CRC.add (CRC.add CRC.init address) 18) mode, true, [mode], rest⟩
      (toBytesBE_length 2 status) (by rw [hBdef, hPdef]; simp) rfl
      (toBytesBE_lt 2 status)
    rw [fromBytesBE_toBytesBE, Nat.mod_eq_of_lt (by norm_num; omega)] at h
    simpa using h
  have h5 : readBE 2 (⟨B, 5,
      (toBytesBE 2 status).foldl CRC.add
        (CRC.add (CRC.add (CRC.add CRC.init address) 18) mode),
      true, mode :: toBytesBE 2 status, rest⟩ : MB) =
      (Except.ok faults,
       ⟨B, 7, cc, true, mode :: (toBytesBE 2 status ++ toBytesBE 2 faults), rest⟩) := by
    have h := readBE_encoded 2 (toBytesBE 2 faults)
      ([encodeWord address, encodeWord 18, encodeWord mode] ++
        (toBytesBE 2 status).map encodeWord)
      [encodeWord (cc &&& 0xFF), encodeWord ((cc >>> 8) &&& 0xFF)]
      ⟨B, 5,
        (toBytesBE 2 status).foldl CRC.add
          (CRC.add (CRC.add (CRC.add CRC.init address) 18) mode),
        true, mode :: toBytesBE 2 status, rest⟩
      (toBytesBE_length 2 faults) (by rw [hBdef, hPdef]; simp)
      (by simp [toBytesBE_length]) (toBytesBE_lt 2 faults)
    rw [fromBytesBE_toBytesBE, Nat.mod_eq_of_lt (by norm_num; omega)] at h
    have hfold : (toBytesBE 2 faults).foldl CRC.add
        ((toBytesBE 2 status).foldl CRC.add
          (CRC.add (CRC.add (CRC.add CRC.init address) 18) mode)) = cc := by
      rw [hccdef, hPdef]
      simp [List.foldl_append]
    rw [hfold] at h
    simpa using h
  have hd0 : cc &&& 0xFF < 256 :=
    lt_of_lt_of_le (Nat.and_lt_two_pow _ (show (0xFF : Nat) < 2 ^ 8 by norm_num))
      (by norm_num)
  have hd1 : (cc >>> 8) &&& 0xFF < 256 :=
    lt_of_lt_of_le (Nat.and_lt_two_pow _ (show (0xFF : Nat) < 2 ^ 8 by norm_num))
      (by norm_num)
  have h6 : checkCRC (⟨B, 7, cc, true,
      mode :: (toBytesBE 2 status ++ toBytesBE 2 faults), rest⟩ : MB) =
      (Except.ok (),
       ⟨B, 9, CRC.init, false,
        mode :: (toBytesBE 2 status ++ toBytesBE 2 faults), rest⟩) := by
    rw [checkCRC]
    have hrb := readBytes_encoded_k 2 [cc &&& 0xFF, (cc >>> 8) &&& 0xFF]
      (P.map encodeWord) []
      ⟨B, 7, cc, false, mode :: (toBytesBE 2 status ++ toBytesBE 2 faults), rest⟩
      rfl (by rw [hBdef]; simp)
      (by simp [hPdef, toBytesBE_length])
      (by intro b hb; simp at hb; omega)
    rw [show ({ (⟨B, 7, cc, true,
          mode :: (toBytesBE 2 status ++ toBytesBE 2 faults), rest⟩ : MB) with
          recordChanges := false } : MB) =
        ⟨B, 7, cc, false, mode :: (toBytesBE 2 status ++ toBytesBE 2 faults), rest⟩
      from rfl]
    rw [hrb]
    have hrecmp : (cc &&& 0xFF) + 256 * ((cc >>> 8) &&& 0xFF) = cc :=
      crc_bytes_recompose cc hcclt
    simp [hrecmp]
  rw [processFrame18]
  simp only [setBuffer, hrec, hrecs, hq]
  rw [h1]
  dsimp only
  rw [h2]
  dsimp only
  rw [if_pos rfl]
  rw [show checkCommanded address 18
      (⟨B, 2, CRC.add (CRC.add CRC.init address) 18, false, [],
        (address, 18) :: rest⟩ : MB) =
      (Except.ok (),
       ⟨B, 2, CRC.add (CRC.add CRC.init address) 18, false, [], rest⟩) from by
    rw [checkCommanded]
    simp]
  dsimp only
  rw [handleFn18]
  rw [show ({ (⟨B, 2, CRC.add (CRC.add CRC.init address) 18, false, [], rest⟩ : MB) with
        recordChanges := true } : MB) =
      ⟨B, 2, CRC.add (CRC.add CRC.init address) 18, true, [], rest⟩ from rfl]
  rw [h3]
  dsimp only
  rw [h4]
  dsimp only
  rw [h5]
  dsimp only
  rw [h6]

/-- C4: two function-18 responses with identical payload (mode=Standby,
status=0, faults=0) and valid CRCs, processed in sequence for the same
commanded address with always_trigger unset and an initially empty
change cache for that address, invoke processServerStatus exactly once
— on the first response — and after both responses the recorded last
mode of the address is Standby. -/
theorem fn18_identical_responses_gated (addr : Nat) (st : ILCState)
    (rest : List (Nat × Nat))
    (ha : addr < 256)
    (htrig : st.alwaysTrigger = false)
    (hcache : (mapLookup ((mapLookup st.cachedResponse addr).getD []) 18).getD [] = [])
    (hrec : st.mb.recordChanges = false) (hrecs : st.mb.records = [])
    (hq : st.mb.commanded = (addr, 18) :: (addr, 18) :: rest) :
    ∃ st1 st2,
      processFrame18 (mkResponse18 addr ILCMode.Standby 0 0).buffer st =
        (Except.ok (some (ILCMode.Standby, 0, 0)), st1) ∧
      processFrame18 (mkResponse18 addr ILCMode.Standby 0 0).buffer st1 =
        (Except.ok none, st2) ∧
      mapLookup st1.lastMode addr = some ILCMode.Standby ∧
      mapLookup st2.lastMode addr = some ILCMode.Standby := by
  simp only [ILCMode.Standby]
  have hcore1 := processFrame18_core addr 0 0 0 st ((addr, 18) :: rest) ha
    (by norm_num) (by norm_num) (by norm_num) hrec hrecs hq
  rw [show ((0 : Nat) :: (toBytesBE 2 0 ++ toBytesBE 2 0)) = [0, 0, 0, 0, 0] from rfl]
    at hcore1
  dsimp only at hcore1
  have hr1 := responseMatchCached_ne addr 18
    ⟨⟨(mkResponse18 addr 0 0 0).buffer, 9, CRC.init, false, [0, 0, 0, 0, 0],
       (addr, 18) :: rest⟩,
     st.cachedResponse, st.lastMode, st.alwaysTrigger⟩
    (by simp [hcache])
  dsimp only at hr1
  rw [hr1] at hcore1
  dsimp only at hcore1
  rw [if_neg (by simp)] at hcore1
  rw [htrig] at hcore1
  have hcore2 := processFrame18_core addr 0 0 0
    ⟨⟨(mkResponse18 addr 0 0 0).buffer, 9, CRC.init, false, [], (addr, 18) :: rest⟩,
     mapInsert st.cachedResponse addr
       (mapInsert ((mapLookup st.cachedResponse addr).getD []) 18 [0, 0, 0, 0, 0]),
     mapInsert st.lastMode addr 0, false⟩
    rest ha (by norm_num) (by norm_num) (by norm_num) rfl rfl rfl
  rw [show ((0 : Nat) :: (toBytesBE 2 0 ++ toBytesBE 2 0)) = [0, 0, 0, 0, 0] from rfl]
    at hcore2
  dsimp only at hcore2
  have hr2 := responseMatchCached_eq addr 18
    ⟨⟨(mkResponse18 addr 0 0 0).buffer, 9, CRC.init, false, [0, 0, 0, 0, 0], rest⟩,
     mapInsert st.cachedResponse addr
       (mapInsert ((mapLookup st.cachedResponse addr).getD []) 18 [0, 0, 0, 0, 0]),
     mapInsert st.lastMode addr 0, false⟩
    (by simp [mapLookup_insert_self])
  simp only [Bool.not_false] at hr2
  rw [hr2] at hcore2
  dsimp only at hcore2
  rw [if_pos rfl] at hcore2
  refine ⟨_, _, hcore1, hcore2, ?_, ?_⟩
  · dsimp only
    exact mapLookup_insert_self st.lastMode addr 0
  · dsimp only
    exact mapLookup_insert_self st.lastMode addr 0

/-- C4 witness: a concrete ILC with two matching requests ledgered
processes the same Standby status frame twice, invoking the status hook
only once. -/
theorem fn18_identical_responses_gated_witness :
    ∃ st1 st2,
      processFrame18 (mkResponse18 8 ILCMode.Standby 0 0).buffer
          ⟨⟨[], 0, CRC.init, false, [], [(8, 18), (8, 18)]⟩, [], [], false⟩ =
        (Except.ok (some (ILCMode.Standby, 0, 0)), st1) ∧
      processFrame18 (mkResponse18 8 ILCMode.Standby 0 0).buffer st1 =
        (Except.ok none, st2) ∧
      mapLookup st1.lastMode 8 = some ILCMode.Standby ∧
      mapLookup st2.lastMode 8 = some ILCMode.Standby :=
  fn18_identical_responses_gated 8
    ⟨⟨[], 0, CRC.init, false, [], [(8, 18), (8, 18)]⟩, [], [], false⟩ []
    (by norm_num) rfl rfl rfl rfl rfl

end CRIO
